import Mathlib

/-!
# Membership Compliance Engine — verification of the specification

A shallow embedding, in Lean 4, of the core of the `dispatcher_baileys` repository:
phone-identity resolution (`src/utils/jid.ts`), registry matching
(`src/utils/phoneCheck.ts`), group-name classification (`src/utils/checkGroupType.ts`,
in its two historical variants), the removal-policy cascade (`src/core/removeTask.ts`),
the notification gate (`src/utils/twilio.ts` together with the communication-log
read/write contract of `src/db/pgsql.ts`) and the replace-semantics queue publisher
(`src/db/redis.ts`).

Strings are modelled as Lean `String` / `List Char`; JavaScript regular-expression
tests are translated into explicit decidable matchers over character lists;
timestamps are `Int` milliseconds; the relational communication log is a list of
rows with upsert semantics; fallible external calls are driven by explicit boolean
fault flags so that thrown exceptions become visible in the model.
-/

namespace Dispatcher

/-! ## Character and string helpers (JS semantics) -/

/-- ASCII lower-casing of a character, used to model the `i` flag of the
JavaScript regular expressions appearing in `checkGroupType.ts`
(all pattern letters there are ASCII). -/
def asciiLower (c : Char) : Char :=
  if 65 ≤ c.toNat && c.toNat ≤ 90 then Char.ofNat (c.toNat + 32) else c

/-- ASCII upper-casing, modelling `String.prototype.toUpperCase` on the ASCII
range (the only range the `MB`-token regex can match). -/
def asciiUpper (c : Char) : Char :=
  if 97 ≤ c.toNat && c.toNat ≤ 122 then Char.ofNat (c.toNat - 32) else c

/-- Case-insensitive character comparison (ASCII). -/
def ciEq (a b : Char) : Bool := asciiLower a == asciiLower b

/-- The JavaScript `\s` character class (also the class used by `String.prototype.trim`). -/
def isJsSpace (c : Char) : Bool :=
  let n := c.toNat
  (9 ≤ n && n ≤ 13) || n == 32 || n == 160 || n == 5760 ||
  (8192 ≤ n && n ≤ 8202) || n == 8232 || n == 8233 || n == 8239 ||
  n == 8287 || n == 12288 || n == 65279

/-- `String.prototype.trim`: drop leading and trailing JS whitespace. -/
def jsTrim (l : List Char) : List Char :=
  ((l.dropWhile isJsSpace).reverse.dropWhile isJsSpace).reverse

/-- The JavaScript `\w` (word) character class, for `\b` boundaries. -/
def isWordChar (c : Char) : Bool :=
  (65 ≤ c.toNat && c.toNat ≤ 90) || (97 ≤ c.toNat && c.toNat ≤ 122) ||
  (48 ≤ c.toNat && c.toNat ≤ 57) || c == '_'

def isWordOpt : Option Char → Bool
  | some c => isWordChar c
  | none => false

/-! ## The group-name pattern tests of `checkGroupType.ts`

Each JavaScript `regex.test(name)` is translated into a scanner over the
character list of `name` that returns `true` exactly when a match exists
somewhere in the string. -/

/-- `JB` starts at the head of the list (case-insensitively). -/
def jbAt : List Char → Bool
  | c1 :: c2 :: _ => ciEq c1 'J' && ciEq c2 'B'
  | _ => false

/-- `/JB/i.test(name)`: some position carries the two letters `JB`. -/
def containsJB : List Char → Bool
  | [] => false
  | c :: rest => jbAt (c :: rest) || containsJB rest

/-- The `\s?JB` suffix of the `M\.?\s?JB` / `R\.?\s?JB` / `A\.?\s?JB` patterns:
optionally one whitespace character, then `JB`. -/
def optSpaceJB (l : List Char) : Bool :=
  jbAt l ||
    (match l with
     | c :: r => isJsSpace c && jbAt r
     | [] => false)

/-- The `\.?\s?JB` suffix: optionally a literal dot, then `optSpaceJB`. -/
def optDotSpaceJB (l : List Char) : Bool :=
  optSpaceJB l ||
    (match l with
     | c :: r => c == '.' && optSpaceJB r
     | [] => false)

/-- `/X\.?\s?JB/i.test(name)` for a letter `X`: scan all positions. -/
def matchLetterJB (x : Char) : List Char → Bool
  | [] => false
  | c :: rest => (ciEq c x && optDotSpaceJB rest) || matchLetterJB x rest

/-- `/JB/i.test(name)` on a `String`. -/
def testJB (s : String) : Bool := containsJB s.data

/-- `/M\.?\s?JB/i.test(name)`. -/
def testMJB (s : String) : Bool := matchLetterJB 'M' s.data

/-- `/R\.?\s?JB/i.test(name)`. -/
def testRJB (s : String) : Bool := matchLetterJB 'R' s.data

/-- `/A\.?\s?JB/i.test(name)`. -/
def testAJB (s : String) : Bool := matchLetterJB 'A' s.data

/-! ### The exported predicates

The repository carries two historical variants of `checkGroupType.ts`.
The variant used by `removeTask.ts` (the one that also exports `isOrgMBGroup`)
defines `isRegularJBGroup` without the `M.JB` exclusion; the other variant
(under `src/utils/checkGroupType.ts`) excludes both `M.JB` and `R.JB` and has
an extra `isMJBGroup` helper. Both are embedded. -/

/-- `isRegularJBGroup` of the `removeTask` variant:
`/JB/i.test(name) && !/R\.?\s?JB/i.test(name)`. -/
def isRegularJBGroup (name : String) : Bool := testJB name && !testRJB name

/-- `isRegularJBGroup` of the `src/utils/checkGroupType.ts` variant:
`/JB/i && !/M\.?\s?JB/i && !/R\.?\s?JB/i`. -/
def isRegularJBGroupSrc (name : String) : Bool :=
  testJB name && !testMJB name && !testRJB name

/-- `isMJBGroup`: `/M\.?\s?JB/i && !/R\.?\s?JB/i`. -/
def isMJBGroup (name : String) : Bool := testMJB name && !testRJB name

/-- `isRJBGroup`: `/R\.?\s?JB/i`. -/
def isRJBGroup (name : String) : Bool := testRJB name

/-- `isAJBGroup`: `/A\.?\s?JB/i`. -/
def isAJBGroup (name : String) : Bool := testAJB name

/-- `isNonJBGroup`: no `JB` marker and not one of the legacy exception names. -/
def isNonJBGroup (name : String) (jbExceptionGroupNames : List String) : Bool :=
  !testJB name && !jbExceptionGroupNames.contains name

/-- Tail of the `/^MB\s*\|\s*Mulheres$/i` match after the optional spaces
following the pipe: exactly `Mulheres` (case-insensitively) up to the end. -/
def listCiEq : List Char → List Char → Bool
  | [], [] => true
  | a :: as, b :: bs => ciEq a b && listCiEq as bs
  | _, _ => false

def mulheresTail2 (l : List Char) : Bool :=
  listCiEq (l.dropWhile isJsSpace) ('M' :: 'u' :: 'l' :: 'h' :: 'e' :: 'r' :: 'e' :: 's' :: [])

def mulheresTail1 (l : List Char) : Bool :=
  match l.dropWhile isJsSpace with
  | '|' :: r => mulheresTail2 r
  | _ => false

def mulheresMatch : List Char → Bool
  | m :: b :: rest => ciEq m 'M' && ciEq b 'B' && mulheresTail1 rest
  | _ => false

/-- `isMBMulheresGroup`: `/^MB\s*\|\s*Mulheres$/i.test(name.trim())`. -/
def isMBMulheresGroup (name : String) : Bool := mulheresMatch (jsTrim name.data)

/-- Head of `/^orgmb(\s|\|)/i` on the trimmed name. -/
def orgMBMatch : List Char → Bool
  | o :: r :: g :: m :: b :: x :: _ =>
      ciEq o 'O' && ciEq r 'R' && ciEq g 'G' && ciEq m 'M' && ciEq b 'B' &&
        (isJsSpace x || x == '|')
  | _ => false

/-- `isOrgMBGroup`: names starting with `OrgMB` followed by a space or pipe. -/
def isOrgMBGroup (name : String) : Bool := orgMBMatch (jsTrim name.data)

/-- `(\b|\]|\))` after the letters `MB` of the `MB`-token pattern: matches at
the end of the string, before a non-word character, or before `]` / `)`. -/
def mbEndOk : List Char → Bool
  | [] => true
  | c :: _ => !isWordChar c || c == ']' || c == ')'

/-- The `\b MB (\b|\]|\))` alternative of the token pattern at the current
position, given the previous character. -/
def mbHere (prev : Option Char) : List Char → Bool
  | 'M' :: 'B' :: rest => !isWordOpt prev && mbEndOk rest
  | _ => false

/-- The `(\[|\() MB (\b|\]|\))` alternative (the opening bracket is consumed). -/
def mbBracketHere : List Char → Bool
  | b :: 'M' :: 'B' :: rest => (b == '[' || b == '(') && mbEndOk rest
  | _ => false

/-- Scan all positions for `/(\b|\[|\()MB(\b|\]|\))/`. -/
def mbTokenScan (prev : Option Char) : List Char → Bool
  | [] => false
  | c :: rest => mbHere prev (c :: rest) || mbBracketHere (c :: rest) || mbTokenScan (some c) rest

/-- `isMBTokenGroup`: `/(\b|\[|\()MB(\b|\]|\))/.test(name.trim().toUpperCase())`. -/
def isMBTokenGroup (name : String) : Bool :=
  mbTokenScan none ((jsTrim name.data).map asciiUpper)

/-! ## The two `checkGroupType` cascades -/

/-- `GroupType` (union of both `DBTypes.ts` variants). -/
inductive GroupType
  | MB
  | MJB
  | RJB
  | AJB
  | JB
  | OrgMB
deriving DecidableEq, Repr

/-- `checkGroupType` of `src/utils/checkGroupType.ts`: first-match cascade
`JB → MJB → RJB → MB → AJB`, `null` when nothing matches. -/
def checkGroupTypeSrc (name : String) : Option GroupType :=
  if isRegularJBGroupSrc name then some GroupType.JB
  else if isMJBGroup name then some GroupType.MJB
  else if isRJBGroup name then some GroupType.RJB
  else if isMBTokenGroup name then some GroupType.MB
  else if isAJBGroup name then some GroupType.AJB
  else none

/-- `checkGroupType` of the `removeTask` variant: cascade
`OrgMB → JB → RJB → MB → AJB`. -/
def checkGroupTypeOrg (name : String) : Option GroupType :=
  if isOrgMBGroup name then some GroupType.OrgMB
  else if isRegularJBGroup name then some GroupType.JB
  else if isRJBGroup name then some GroupType.RJB
  else if isMBTokenGroup name then some GroupType.MB
  else if isAJBGroup name then some GroupType.AJB
  else none

/-! ### The `A.JB` pattern forces the generic `JB` pattern -/

theorem containsJB_of_jbAt {l : List Char} (h : jbAt l = true) : containsJB l = true := by
  cases l with
  | nil => simp [jbAt] at h
  | cons c rest => simp [containsJB, h]

theorem containsJB_cons {c : Char} {l : List Char} (h : containsJB l = true) :
    containsJB (c :: l) = true := by
  simp [containsJB, h]

theorem containsJB_of_optSpaceJB {l : List Char} (h : optSpaceJB l = true) :
    containsJB l = true := by
  unfold optSpaceJB at h
  rcases Bool.or_eq_true_iff.mp h with h1 | h2
  · exact containsJB_of_jbAt h1
  · cases l with
    | nil => simp at h2
    | cons c r =>
        simp only [Bool.and_eq_true] at h2
        exact containsJB_cons (containsJB_of_jbAt h2.2)

theorem containsJB_of_optDotSpaceJB {l : List Char} (h : optDotSpaceJB l = true) :
    containsJB l = true := by
  unfold optDotSpaceJB at h
  rcases Bool.or_eq_true_iff.mp h with h1 | h2
  · exact containsJB_of_optSpaceJB h1
  · cases l with
    | nil => simp at h2
    | cons c r =>
        simp only [Bool.and_eq_true] at h2
        exact containsJB_cons (containsJB_of_optSpaceJB h2.2)

theorem containsJB_of_matchLetterJB {x : Char} {l : List Char}
    (h : matchLetterJB x l = true) : containsJB l = true := by
  induction l with
  | nil => simp [matchLetterJB] at h
  | cons c rest ih =>
      unfold matchLetterJB at h
      rcases Bool.or_eq_true_iff.mp h with h1 | h2
      · simp only [Bool.and_eq_true] at h1
        exact containsJB_cons (containsJB_of_optDotSpaceJB h1.2)
      · exact containsJB_cons (ih h2)

/-- C9: neither variant of `checkGroupType` can ever return the relaxed
age-restricted type `AJB`: a name matching `/A\.?\s?JB/i` always contains the
`JB` marker, so one of the earlier `JB`-family branches fires first, making the
`AJB` branch dead code. -/
theorem checkGroupType_never_AJB (name : String) :
    checkGroupTypeSrc name ≠ some GroupType.AJB ∧
    checkGroupTypeOrg name ≠ some GroupType.AJB := by
  constructor
  · unfold checkGroupTypeSrc
    split_ifs with h1 h2 h3 h4 h5 <;> simp_all
    have hJB : testJB name = true := containsJB_of_matchLetterJB h5
    simp only [isRJBGroup] at h3
    simp only [isRegularJBGroupSrc, hJB, h3, Bool.not_false, Bool.and_true,
      Bool.true_and, Bool.not_eq_false'] at h1
    simp only [isMJBGroup, h1, h3, Bool.not_false, Bool.and_true] at h2
    exact Bool.noConfusion h2
  · unfold checkGroupTypeOrg
    split_ifs with h1 h2 h3 h4 h5 <;> simp_all
    have hJB : testJB name = true := containsJB_of_matchLetterJB h5
    simp only [isRJBGroup] at h3
    simp only [isRegularJBGroup, hJB, h3, Bool.not_false, Bool.and_true,
      Bool.true_and] at h2
    exact Bool.noConfusion h2

/-! ## Phone Identity Resolver (`src/utils/jid.ts`) -/

/-- `onlyDigits` of `jid.ts`: `null` for an empty string, else keep the digit
characters and require at least 7 of them. -/
def onlyDigits (s : String) : Option String :=
  if s.isEmpty then none
  else
    let digits := s.data.filter Char.isDigit
    if 7 ≤ digits.length then some (String.mk digits) else none

/-- `list.break` at the first occurrence of `sep`: the part before it and,
when `sep` occurs, the part after it. -/
def breakAt (sep : Char) : List Char → List Char × Option (List Char)
  | [] => ([], none)
  | c :: rest =>
      if c == sep then ([], some rest)
      else
        let p := breakAt sep rest
        (c :: p.1, p.2)

/-- `jid.split("@", 2)`: the user part and, when an `@` is present, the domain
part (the text between the first and the second `@`). -/
def jsSplit2At (l : List Char) : List Char × Option (List Char) :=
  match breakAt '@' l with
  | (user, none) => (user, none)
  | (user, some rest) => (user, some (breakAt '@' rest).1)

/-- `extractFromJid`: accept only real user JIDs (`s.whatsapp.net` / `c.us`)
and extract the digits of the user part. -/
def extractFromJid (jid : String) : Option String :=
  match jsSplit2At jid.data with
  | (_, none) => none
  | (user, some domain) =>
      if user.isEmpty then none
      else if domain.isEmpty then none
      else if String.mk domain ≠ "s.whatsapp.net" ∧ String.mk domain ≠ "c.us" then none
      else onlyDigits (String.mk user)

/-- The dynamic shape of the `id` field of a participant object:
a string JID, an object carrying a (possibly undefined) `user` field, or any
other value (which the resolver ignores). -/
inductive IdVal
  | str (s : String)
  | usr (u : Option String)
  | other
deriving DecidableEq, Repr

/-- `MinimalParticipant` of `jid.ts`: a bare JID string or an object with
optional `id` and `user` fields (outer `none` = field absent,
inner `none` = field present but undefined). -/
inductive MinimalParticipant
  | pstr (s : String)
  | pobj (id : Option IdVal) (user : Option (Option String))
deriving DecidableEq, Repr

/-- The `if ("user" in p)` fallback of `extractPhoneFromParticipant`. -/
def userFieldPhone : Option (Option String) → Option String
  | some u => onlyDigits (u.getD "")
  | none => none

/-- `extractPhoneFromParticipant` (the one-argument resolver of
`src/utils/jid.ts`). -/
def extractPhoneFromParticipant : MinimalParticipant → Option String
  | .pstr s => extractFromJid s
  | .pobj (some (.str s)) _ => extractFromJid s
  | .pobj (some (.usr u)) _ => onlyDigits (u.getD "")
  | .pobj (some .other) user => userFieldPhone user
  | .pobj none user => userFieldPhone user

theorem onlyDigits_spec {s t : String} (h : onlyDigits s = some t) :
    t.data.all Char.isDigit = true ∧ 7 ≤ t.data.length := by
  unfold onlyDigits at h
  by_cases h1 : s.isEmpty
  · simp [h1] at h
  · rw [if_neg h1] at h
    by_cases h2 : 7 ≤ (s.data.filter Char.isDigit).length
    · rw [if_pos h2] at h
      simp only [Option.some.injEq] at h
      subst h
      refine ⟨?_, h2⟩
      simp only [List.all_eq_true]
      intro c hc
      exact (List.mem_filter.mp hc).2
    · rw [if_neg h2] at h
      exact absurd h (by simp)

theorem extractFromJid_spec {s t : String} (h : extractFromJid s = some t) :
    t.data.all Char.isDigit = true ∧ 7 ≤ t.data.length := by
  unfold extractFromJid at h
  rcases hsplit : jsSplit2At s.data with ⟨user, domain⟩
  rw [hsplit] at h
  match domain with
  | none => exact absurd h (by simp)
  | some d =>
      simp only at h
      split_ifs at h with h1 h2 h3
      · exact onlyDigits_spec h

/-- C10: the resolver is safe: whenever `extractPhoneFromParticipant` returns a
phone it is a digits-only string of length at least 7; and a JID whose domain is
neither `s.whatsapp.net` nor `c.us` never resolves to a phone. -/
theorem extractPhoneFromParticipant_safe :
    (∀ p t, extractPhoneFromParticipant p = some t →
      t.data.all Char.isDigit = true ∧ 7 ≤ t.data.length) ∧
    (∀ (jid : String) (user dom : List Char),
      jsSplit2At jid.data = (user, some dom) →
      String.mk dom ≠ "s.whatsapp.net" → String.mk dom ≠ "c.us" →
      extractFromJid jid = none) := by
  constructor
  · intro p t h
    match p with
    | .pstr s => exact extractFromJid_spec h
    | .pobj (some (.str s)) _ => exact extractFromJid_spec h
    | .pobj (some (.usr u)) _ => exact onlyDigits_spec h
    | .pobj (some .other) user =>
        match user with
        | some u => exact onlyDigits_spec h
        | none => exact absurd h (by simp [extractPhoneFromParticipant, userFieldPhone])
    | .pobj none user =>
        match user with
        | some u => exact onlyDigits_spec h
        | none => exact absurd h (by simp [extractPhoneFromParticipant, userFieldPhone])
  · intro jid user dom hsplit hd1 hd2
    unfold extractFromJid
    rw [hsplit]
    simp only
    split_ifs with h1 h2 h3
    · rfl
    · rfl
    · rfl
    · exact absurd ⟨hd1, hd2⟩ h3

/-- Witness for C10 at a concrete resolvable JID and a concrete rejected domain. -/
theorem extractPhoneFromParticipant_safe_witness :
    ("5511987654321".data.all Char.isDigit = true ∧ 7 ≤ "5511987654321".data.length) ∧
    extractFromJid "5511987654321@lid" = none := by
  constructor
  · exact extractPhoneFromParticipant_safe.1 (.pstr "5511987654321@s.whatsapp.net")
      "5511987654321" (by decide)
  · exact extractPhoneFromParticipant_safe.2 "5511987654321@lid" "5511987654321".data
      "lid".data (by decide) (by decide) (by decide)

/-! ## Registry Matcher (`src/utils/phoneCheck.ts`) -/

/-- A registry row as consumed by `preprocessPhoneNumbers` / `checkPhoneNumber`
(the fields that the matcher actually reads). -/
structure PhoneNumberStatusRow where
  phone_number : String
  registration_id : Int
  gender : String
  status : String
  jb_under_10 : Bool
  jb_over_10 : Bool
  jb_over_12 : Bool
  is_adult : Bool
  is_legal_representative : Bool
  child_phone_matches_legal_rep : Bool
deriving DecidableEq, Repr

/-- `phone.replace(/\D/g, "")`. -/
def digitsOf (s : String) : List Char := s.data.filter Char.isDigit

/-- The canonical spelling computed at the top of the `preprocessPhoneNumbers`
loop: strip to digits; when no `+` is present, prepend the country code `55`
after dropping leading zeros. -/
def normalizePhone (s : String) : List Char :=
  if s.data.contains '+' then digitsOf s
  else '5' :: '5' :: (digitsOf s).dropWhile (fun c => c == '0')

/-- `phoneNumber.startsWith("55")`. -/
def startsWith55 (l : List Char) : Bool :=
  match l with
  | a :: b :: _ => a == '5' && b == '5'
  | _ => false

/-- `phoneNumber.slice(0, 4) + phoneNumber.slice(5)`: the spelling with the
ninth digit removed. -/
def withoutNinthDigit (p : List Char) : List Char := p.take 4 ++ p.drop 5

/-- `phoneNumber.slice(0, 4) + "9" + phoneNumber.slice(4)`: the spelling with
an extra leading `9` in the subscriber segment. -/
def withNinthDigit (p : List Char) : List Char := p.take 4 ++ '9' :: p.drop 4

/-- The cycle-scoped phone index: insertion-ordered association list from
spellings to the rows registered under them. -/
abbrev PhoneMap : Type := List (List Char × List PhoneNumberStatusRow)

/-- `phoneNumberMap.get(key)`. -/
def mapGet (m : PhoneMap) (k : List Char) : Option (List PhoneNumberStatusRow) :=
  (List.find? (fun p => p.1 == k) m).map (fun p => p.2)

/-- The `addToMap` closure: append the entry under the key, creating the key's
list when absent. -/
def mapAdd (m : PhoneMap) (k : List Char) (r : PhoneNumberStatusRow) : PhoneMap :=
  if (List.find? (fun p => p.1 == k) m).isSome then
    List.map (fun p => if p.1 == k then (p.1, p.2 ++ [r]) else p) m
  else m ++ [(k, [r])]

/-- One iteration of the `preprocessPhoneNumbers` loop: register the canonical
spelling, and for domestic (`55`-prefixed) numbers also the two ninth-digit
variants, all pointing at the same row. -/
def addEntry (m : PhoneMap) (entry : PhoneNumberStatusRow) : PhoneMap :=
  let p := normalizePhone entry.phone_number
  if startsWith55 p then
    mapAdd (mapAdd (mapAdd m p entry) (withoutNinthDigit p) entry) (withNinthDigit p) entry
  else
    mapAdd m p entry

/-- `preprocessPhoneNumbers`. -/
def preprocessPhoneNumbers (rows : List PhoneNumberStatusRow) : PhoneMap :=
  rows.foldl addEntry []

/-- The flag accumulator of the `checkPhoneNumber` aggregation loop, with the
loop's initial values (`childPhoneMatchesLegalRep` starts `true`). -/
structure CheckAggregates where
  hasJbUnder10 : Bool
  hasJbOver10 : Bool
  hasJbOver12 : Bool
  hasAdult : Bool
  hasAdultFemale : Bool
  isLegalRepresentative : Bool
  representsJbOver12 : Bool
  representsMinor : Bool
  childPhoneMatchesLegalRep : Bool
deriving DecidableEq, Repr

def aggInit : CheckAggregates :=
  ⟨false, false, false, false, false, false, false, false, true⟩

/-- One iteration of the aggregation loop of `checkPhoneNumber`. -/
def aggStep (f : CheckAggregates) (e : PhoneNumberStatusRow) : CheckAggregates where
  hasJbUnder10 := f.hasJbUnder10 || e.jb_under_10
  hasJbOver10 := f.hasJbOver10 || e.jb_over_10
  hasJbOver12 := f.hasJbOver12 || e.jb_over_12
  hasAdult := f.hasAdult || e.is_adult
  hasAdultFemale := f.hasAdultFemale || (e.gender == "Feminino" && e.is_adult)
  isLegalRepresentative := f.isLegalRepresentative || e.is_legal_representative
  representsJbOver12 := f.representsJbOver12 || (e.is_legal_representative && e.jb_over_12)
  representsMinor :=
    f.representsMinor || (e.is_legal_representative && (e.jb_under_10 || e.jb_over_10))
  childPhoneMatchesLegalRep := f.childPhoneMatchesLegalRep && e.child_phone_matches_legal_rep

/-- The matcher's answer (the shape returned by `checkPhoneNumber`; every field
other than `found` is `undefined` on a miss). -/
structure PhoneCheckResult where
  found : Bool
  status : Option String := none
  mb : Option Int := none
  gender : Option String := none
  jb_under_10 : Option Bool := none
  jb_over_10 : Option Bool := none
  jb_over_12 : Option Bool := none
  is_adult : Option Bool := none
  is_legal_representative : Option Bool := none
  represents_jb_over_12 : Option Bool := none
  represents_minor : Option Bool := none
  has_adult_female : Option Bool := none
  child_phone_matches_legal_rep : Option Bool := none
deriving DecidableEq, Repr

/-- `checkPhoneNumber`: exact key lookup, scalar fields from the first matched
row, flags from the aggregation loop. -/
def checkPhoneNumber (m : PhoneMap) (inputPhoneNumber : List Char) : PhoneCheckResult :=
  match (mapGet m inputPhoneNumber).getD [] with
  | [] => { found := false }
  | first :: rest =>
      let agg := (first :: rest).foldl aggStep aggInit
      { found := true
        status := some first.status
        mb := some first.registration_id
        gender := some first.gender
        jb_under_10 := some agg.hasJbUnder10
        jb_over_10 := some agg.hasJbOver10
        jb_over_12 := some agg.hasJbOver12
        is_adult := some agg.hasAdult
        is_legal_representative := some agg.isLegalRepresentative
        represents_jb_over_12 := some agg.representsJbOver12
        represents_minor := some agg.representsMinor
        has_adult_female := some agg.hasAdultFemale
        child_phone_matches_legal_rep := some agg.childPhoneMatchesLegalRep }

/-! ### C2 — aggregation across matched rows -/

theorem agg_foldl_spec (l : List PhoneNumberStatusRow) (f : CheckAggregates) :
    l.foldl aggStep f =
      ⟨f.hasJbUnder10 || l.any (fun e => e.jb_under_10),
       f.hasJbOver10 || l.any (fun e => e.jb_over_10),
       f.hasJbOver12 || l.any (fun e => e.jb_over_12),
       f.hasAdult || l.any (fun e => e.is_adult),
       f.hasAdultFemale || l.any (fun e => e.gender == "Feminino" && e.is_adult),
       f.isLegalRepresentative || l.any (fun e => e.is_legal_representative),
       f.representsJbOver12 || l.any (fun e => e.is_legal_representative && e.jb_over_12),
       f.representsMinor ||
         l.any (fun e => e.is_legal_representative && (e.jb_under_10 || e.jb_over_10)),
       f.childPhoneMatchesLegalRep && l.all (fun e => e.child_phone_matches_legal_rep)⟩ := by
  induction l generalizing f with
  | nil => simp
  | cons e rest ih =>
      simp only [List.foldl_cons, ih, List.any_cons, List.all_cons]
      simp [aggStep, Bool.or_assoc, Bool.and_assoc]

/-- C2 (amended): for a phone present in the index, the `adult`,
`legal-representative` and age-band flags of the match are the OR over all
matched rows, while `child_phone_matches_legal_rep` is the AND over all matched
rows (not the OR). -/
theorem checkPhoneNumber_aggregates (m : PhoneMap) (input : List Char)
    (l : List PhoneNumberStatusRow) (hget : mapGet m input = some l) (hne : l ≠ []) :
    (checkPhoneNumber m input).is_adult = some (l.any (fun e => e.is_adult)) ∧
    (checkPhoneNumber m input).is_legal_representative =
      some (l.any (fun e => e.is_legal_representative)) ∧
    (checkPhoneNumber m input).jb_under_10 = some (l.any (fun e => e.jb_under_10)) ∧
    (checkPhoneNumber m input).jb_over_10 = some (l.any (fun e => e.jb_over_10)) ∧
    (checkPhoneNumber m input).jb_over_12 = some (l.any (fun e => e.jb_over_12)) ∧
    (checkPhoneNumber m input).has_adult_female =
      some (l.any (fun e => e.gender == "Feminino" && e.is_adult)) ∧
    (checkPhoneNumber m input).child_phone_matches_legal_rep =
      some (l.all (fun e => e.child_phone_matches_legal_rep)) := by
  cases l with
  | nil => exact absurd rfl hne
  | cons first rest =>
      unfold checkPhoneNumber
      rw [hget]
      simp only [Option.getD_some, agg_foldl_spec]
      exact ⟨rfl, rfl, rfl, rfl, rfl, rfl, rfl⟩

/-- C2 counterexample inputs: two registry rows sharing one phone spelling,
one with `child_phone_matches_legal_rep`, one without. -/
def rowChildMatch : PhoneNumberStatusRow :=
  ⟨"+5511912345678", 100, "Feminino", "Active", false, false, false, false, false, true⟩

def rowChildNoMatch : PhoneNumberStatusRow :=
  ⟨"+5511912345678", 200, "Masculino", "Active", false, false, false, false, false, false⟩

/-- C2 counterexample: with both rows indexed under the same phone, the
returned `child_phone_matches_legal_rep` is `false` although the OR of the
field across the matched records is `true` — so that field is not the logical
OR of the records. -/
theorem checkPhoneNumber_child_field_not_or :
    (checkPhoneNumber (preprocessPhoneNumbers [rowChildMatch, rowChildNoMatch])
        "5511912345678".data).found = true ∧
    (checkPhoneNumber (preprocessPhoneNumbers [rowChildMatch, rowChildNoMatch])
        "5511912345678".data).child_phone_matches_legal_rep = some false ∧
    (rowChildMatch.child_phone_matches_legal_rep ||
        rowChildNoMatch.child_phone_matches_legal_rep) = true := by
  exact ⟨rfl, by decide, rfl⟩

/-! ### C6 — ninth-digit spelling variants share their record lists -/

theorem keyPred_comp (k : List Char) (r : PhoneNumberStatusRow) :
    ((fun p : List Char × List PhoneNumberStatusRow => p.1 == k) ∘
        (fun p : List Char × List PhoneNumberStatusRow =>
          if p.1 == k then (p.1, p.2 ++ [r]) else p)) =
      fun p : List Char × List PhoneNumberStatusRow => p.1 == k := by
  funext p
  by_cases h : p.1 = k <;> simp [h]

theorem mapGet_mapAdd_eq (m : PhoneMap) (k : List Char) (r : PhoneNumberStatusRow) :
    mapGet (mapAdd m k r) k = some ((mapGet m k).getD [] ++ [r]) := by
  unfold mapAdd
  by_cases hf : (List.find? (fun p => p.1 == k) m).isSome
  · rw [if_pos hf]
    obtain ⟨q, hq⟩ := Option.isSome_iff_exists.mp hf
    have hq1 : q.1 = k := by simpa using List.find?_some hq
    unfold mapGet
    rw [List.find?_map, keyPred_comp k r, hq]
    simp [hq, hq1]
  · rw [if_neg hf]
    have hnone : List.find? (fun p => p.1 == k) m = none :=
      Option.not_isSome_iff_eq_none.mp hf
    unfold mapGet
    rw [List.find?_append, hnone]
    simp [hnone, List.find?]

theorem mapGet_mapAdd_ne (m : PhoneMap) {k k' : List Char} (r : PhoneNumberStatusRow)
    (h : k' ≠ k) : mapGet (mapAdd m k' r) k = mapGet m k := by
  unfold mapAdd
  by_cases hf : (List.find? (fun p => p.1 == k') m).isSome
  · rw [if_pos hf]
    unfold mapGet
    rw [List.find?_map]
    have hcomp : ((fun p : List Char × List PhoneNumberStatusRow => p.1 == k) ∘
        (fun p : List Char × List PhoneNumberStatusRow =>
          if p.1 == k' then (p.1, p.2 ++ [r]) else p)) =
        fun p : List Char × List PhoneNumberStatusRow => p.1 == k := by
      funext p
      by_cases hp : p.1 = k' <;> simp [hp]
    rw [hcomp]
    cases hq : List.find? (fun p : List Char × List PhoneNumberStatusRow => p.1 == k) m with
    | none => simp
    | some q =>
        have hq1 : q.1 = k := by simpa using List.find?_some hq
        have hne : ¬q.1 = k' := by rw [hq1]; exact Ne.symm h
        simp [hne]
  · rw [if_neg hf]
    unfold mapGet
    rw [List.find?_append]
    have hk : (((k', [r]) : List Char × List PhoneNumberStatusRow).1 == k) = false := by
      simpa using h
    simp [List.find?, hk]

theorem mapAdd_mem_self (m : PhoneMap) (k : List Char) (r : PhoneNumberStatusRow) :
    ∃ l, mapGet (mapAdd m k r) k = some l ∧ r ∈ l :=
  ⟨_, mapGet_mapAdd_eq m k r, by simp⟩

theorem mapAdd_mem_mono {m : PhoneMap} {k : List Char} {l : List PhoneNumberStatusRow}
    {x : PhoneNumberStatusRow} (hl : mapGet m k = some l) (hx : x ∈ l)
    (k' : List Char) (r : PhoneNumberStatusRow) :
    ∃ l', mapGet (mapAdd m k' r) k = some l' ∧ x ∈ l' := by
  by_cases hkk : k' = k
  · subst hkk
    refine ⟨l ++ [r], ?_, by simp [hx]⟩
    rw [mapGet_mapAdd_eq, hl]
    rfl
  · exact ⟨l, by rw [mapGet_mapAdd_ne m r hkk]; exact hl, hx⟩

theorem addEntry_mem_mono {m : PhoneMap} {k : List Char} {l : List PhoneNumberStatusRow}
    {x : PhoneNumberStatusRow} (hl : mapGet m k = some l) (hx : x ∈ l)
    (e : PhoneNumberStatusRow) :
    ∃ l', mapGet (addEntry m e) k = some l' ∧ x ∈ l' := by
  unfold addEntry
  by_cases h55 : startsWith55 (normalizePhone e.phone_number) = true
  · rw [if_pos h55]
    obtain ⟨l1, h1, hx1⟩ := mapAdd_mem_mono hl hx (normalizePhone e.phone_number) e
    obtain ⟨l2, h2, hx2⟩ := mapAdd_mem_mono h1 hx1 (withoutNinthDigit (normalizePhone e.phone_number)) e
    exact mapAdd_mem_mono h2 hx2 (withNinthDigit (normalizePhone e.phone_number)) e
  · rw [if_neg h55]
    exact mapAdd_mem_mono hl hx (normalizePhone e.phone_number) e

theorem foldl_addEntry_mem_mono (rows : List PhoneNumberStatusRow) {k : List Char}
    {x : PhoneNumberStatusRow} :
    ∀ m : PhoneMap, (∃ l, mapGet m k = some l ∧ x ∈ l) →
      ∃ l', mapGet (rows.foldl addEntry m) k = some l' ∧ x ∈ l' := by
  induction rows with
  | nil => intro m h; simpa using h
  | cons e rest ih =>
      intro m h
      obtain ⟨l, hl, hx⟩ := h
      exact ih (addEntry m e) (addEntry_mem_mono hl hx e)

theorem addEntry_registers (m : PhoneMap) (e : PhoneNumberStatusRow) (k : List Char)
    (hk : k = normalizePhone e.phone_number ∨
      (startsWith55 (normalizePhone e.phone_number) = true ∧
        (k = withoutNinthDigit (normalizePhone e.phone_number) ∨
         k = withNinthDigit (normalizePhone e.phone_number)))) :
    ∃ l, mapGet (addEntry m e) k = some l ∧ e ∈ l := by
  unfold addEntry
  by_cases h55 : startsWith55 (normalizePhone e.phone_number) = true
  · rw [if_pos h55]
    rcases hk with hk | ⟨_, hk | hk⟩
    · subst hk
      obtain ⟨l1, h1, hx1⟩ := mapAdd_mem_self m (normalizePhone e.phone_number) e
      obtain ⟨l2, h2, hx2⟩ := mapAdd_mem_mono h1 hx1 (withoutNinthDigit (normalizePhone e.phone_number)) e
      exact mapAdd_mem_mono h2 hx2 (withNinthDigit (normalizePhone e.phone_number)) e
    · subst hk
      obtain ⟨l2, h2, hx2⟩ :=
        mapAdd_mem_self (mapAdd m (normalizePhone e.phone_number) e)
          (withoutNinthDigit (normalizePhone e.phone_number)) e
      exact mapAdd_mem_mono h2 hx2 (withNinthDigit (normalizePhone e.phone_number)) e
    · subst hk
      exact mapAdd_mem_self _ (withNinthDigit (normalizePhone e.phone_number)) e
  · rw [if_neg h55]
    rcases hk with hk | ⟨h55', _⟩
    · subst hk
      exact mapAdd_mem_self m (normalizePhone e.phone_number) e
    · exact absurd h55' h55

theorem preprocess_mem_aux {row : PhoneNumberStatusRow} {k : List Char}
    (hk : k = normalizePhone row.phone_number ∨
      (startsWith55 (normalizePhone row.phone_number) = true ∧
        (k = withoutNinthDigit (normalizePhone row.phone_number) ∨
         k = withNinthDigit (normalizePhone row.phone_number))))
    (rows : List PhoneNumberStatusRow) :
    ∀ m : PhoneMap, row ∈ rows →
      ∃ l, mapGet (rows.foldl addEntry m) k = some l ∧ row ∈ l := by
  induction rows with
  | nil => intro m h; cases h
  | cons e rest ih =>
      intro m hrow
      rcases List.mem_cons.mp hrow with he | hrest
      · subst he
        exact foldl_addEntry_mem_mono rest (addEntry m row) (addEntry_registers m row k hk)
      · exact ih (addEntry m e) hrest

theorem preprocess_mem {rows : List PhoneNumberStatusRow} {row : PhoneNumberStatusRow}
    (k : List Char) (hrow : row ∈ rows)
    (hk : k = normalizePhone row.phone_number ∨
      (startsWith55 (normalizePhone row.phone_number) = true ∧
        (k = withoutNinthDigit (normalizePhone row.phone_number) ∨
         k = withNinthDigit (normalizePhone row.phone_number)))) :
    ∃ l, mapGet (preprocessPhoneNumbers rows) k = some l ∧ row ∈ l :=
  preprocess_mem_aux hk rows [] hrow

theorem withoutNinth_withNinth (p : List Char) (hlen : 4 ≤ p.length) :
    withoutNinthDigit (withNinthDigit p) = p := by
  unfold withoutNinthDigit withNinthDigit
  have h4 : (p.take 4).length = 4 := by
    rw [List.length_take]
    omega
  rw [List.take_append_eq_append_take, List.drop_append_eq_append_drop, h4]
  have hd : List.drop 5 (List.take 4 p) = [] := List.drop_eq_nil_of_le (by omega)
  rw [hd, List.take_take]
  simp [List.take_append_drop]

theorem startsWith55_withNinth {p : List Char} (h : startsWith55 p = true) :
    startsWith55 (withNinthDigit p) = true := by
  cases p with
  | nil => simp [startsWith55] at h
  | cons a t =>
      cases t with
      | nil => simp [startsWith55] at h
      | cons b rest => exact h

/-- C6 (amended): for ninth-digit spellings `p1` and `p2 = p1` with a `9`
inserted after the country-and-area prefix, every registry row whose canonical
spelling is `p1` or `p2` is registered in the index under *both* keys — both
spellings are present as keys and both lists contain that row. (Full equality
of the two record lists does not hold in general, see the counterexample.) -/
theorem ninthDigitVariants_indexed (rows : List PhoneNumberStatusRow)
    (row : PhoneNumberStatusRow) (p1 : List Char)
    (hrow : row ∈ rows) (h55 : startsWith55 p1 = true) (hlen : 4 ≤ p1.length)
    (hnorm : normalizePhone row.phone_number = p1 ∨
             normalizePhone row.phone_number = withNinthDigit p1) :
    (∃ l1, mapGet (preprocessPhoneNumbers rows) p1 = some l1 ∧ row ∈ l1) ∧
    (∃ l2, mapGet (preprocessPhoneNumbers rows) (withNinthDigit p1) = some l2 ∧ row ∈ l2) := by
  rcases hnorm with hn | hn
  · constructor
    · exact preprocess_mem p1 hrow (Or.inl hn.symm)
    · refine preprocess_mem (withNinthDigit p1) hrow (Or.inr ⟨?_, Or.inr ?_⟩)
      · rw [hn]; exact h55
      · rw [hn]
  · constructor
    · refine preprocess_mem p1 hrow (Or.inr ⟨?_, Or.inl ?_⟩)
      · rw [hn]; exact startsWith55_withNinth h55
      · rw [hn, withoutNinth_withNinth p1 hlen]
    · exact preprocess_mem (withNinthDigit p1) hrow (Or.inl hn.symm)

/-- C6 counterexample input: a row whose canonical spelling is the variant
without the ninth digit. -/
def rowVariantA : PhoneNumberStatusRow :=
  ⟨"+551112345678", 1, "Feminino", "Active", false, false, false, false, false, true⟩

/-- C6 counterexample input: a row whose canonical spelling carries a double
ninth digit, so that its `withoutNinthDigit` spelling collides with
`withNinthDigit` of `rowVariantA`'s spelling. -/
def rowVariantB : PhoneNumberStatusRow :=
  ⟨"+55119912345678", 2, "Feminino", "Active", false, false, false, true, false, true⟩

/-- C6 counterexample: `p1 = 551112345678` and `p2 = withNinthDigit p1` are
ninth-digit variants and `p1` is present in the registry, yet the two keys map
to different record lists (`p2` additionally catches `rowVariantB`), and
`checkPhoneNumber` observably disagrees between the two spellings — so the
matched record sets are not always equal. -/
theorem ninthDigitVariants_not_same_set :
    normalizePhone rowVariantA.phone_number = "551112345678".data ∧
    withNinthDigit "551112345678".data = "5511912345678".data ∧
    mapGet (preprocessPhoneNumbers [rowVariantA, rowVariantB]) "551112345678".data =
      some [rowVariantA] ∧
    mapGet (preprocessPhoneNumbers [rowVariantA, rowVariantB]) "5511912345678".data =
      some [rowVariantA, rowVariantB] ∧
    (checkPhoneNumber (preprocessPhoneNumbers [rowVariantA, rowVariantB])
        "551112345678".data).is_adult = some false ∧
    (checkPhoneNumber (preprocessPhoneNumbers [rowVariantA, rowVariantB])
        "5511912345678".data).is_adult = some true := by
  refine ⟨by decide, by decide, by decide, by decide, by decide, by decide⟩

/-- Witness for the amended C6 theorem at a concrete one-row registry. -/
theorem ninthDigitVariants_indexed_witness :
    (∃ l1, mapGet (preprocessPhoneNumbers [rowVariantA]) "551112345678".data = some l1 ∧
      rowVariantA ∈ l1) ∧
    (∃ l2, mapGet (preprocessPhoneNumbers [rowVariantA])
        (withNinthDigit "551112345678".data) = some l2 ∧ rowVariantA ∈ l2) :=
  ninthDigitVariants_indexed [rowVariantA] rowVariantA "551112345678".data
    (by simp) (by decide) (by decide) (Or.inl (by decide))

/-- Witness for the amended C2 theorem at the concrete two-row registry. -/
theorem checkPhoneNumber_aggregates_witness :
    (checkPhoneNumber (preprocessPhoneNumbers [rowChildMatch, rowChildNoMatch])
        "5511912345678".data).is_adult =
      some ([rowChildMatch, rowChildNoMatch].any (fun e => e.is_adult)) :=
  (checkPhoneNumber_aggregates (preprocessPhoneNumbers [rowChildMatch, rowChildNoMatch])
    "5511912345678".data [rowChildMatch, rowChildNoMatch] (by decide) (by decide)).1

/-- Witness for C9 at a concrete `A.JB` name: the cascade resolves it to `JB`,
not to `AJB`. -/
theorem checkGroupType_never_AJB_witness :
    isAJBGroup "A.JB | Turma" = true ∧
    checkGroupTypeSrc "A.JB | Turma" = some GroupType.JB ∧
    checkGroupTypeOrg "A.JB | Turma" = some GroupType.JB ∧
    checkGroupTypeSrc "A.JB | Turma" ≠ some GroupType.AJB :=
  ⟨by decide, by decide, by decide, (checkGroupType_never_AJB "A.JB | Turma").1⟩

/-! ## Notification Gate (`src/utils/twilio.ts` + `whatsapp_comms` contract)

The communication log is modelled as a list of rows; `getLastCommunication`
returns an unresolved row of maximal timestamp for the phone (the SQL
`ORDER BY timestamp DESC LIMIT 1`), and `logCommunication` is the
`INSERT ... ON CONFLICT (phone_number, reason) DO UPDATE` upsert.
External failures are driven by explicit fault flags: a `readThrows` /
`upsertThrows` models the corresponding database call throwing, and
`dispatchFails` models the Twilio Studio execution call throwing (which the
source catches inside `sendTwilio`). -/

/-- A `whatsapp_comms` row. -/
structure CommRow where
  phone : String
  reason : String
  timestamp : Int
  unresolved : Bool
deriving DecidableEq, Repr

/-- One step of the maximal-timestamp scan behind `getLastCommunication`. -/
def glStep (phone : String) (acc : Option CommRow) (r : CommRow) : Option CommRow :=
  if r.phone == phone && r.unresolved then
    match acc with
    | none => some r
    | some b => if b.timestamp < r.timestamp then some r else some b
  else acc

/-- `getLastCommunication`: the most recent unresolved communication for the
phone, regardless of reason (ties broken towards the earlier row, a choice the
SQL leaves open). -/
def getLastCommunication (phone : String) (s : List CommRow) : Option CommRow :=
  s.foldl (glStep phone) none

/-- `logCommunication`: upsert of the `(phone, reason)` row with the current
timestamp and `unresolved` status. -/
def logCommunication (phone reason : String) (now : Int) (s : List CommRow) : List CommRow :=
  if s.any (fun r => r.phone == phone && r.reason == reason) then
    s.map (fun r =>
      if r.phone == phone && r.reason == reason then
        { r with timestamp := now, unresolved := true }
      else r)
  else s ++ [⟨phone, reason, now, true⟩]

/-- `7 * 24 * 60 * 60 * 1000` — the hard-coded one-week re-notify threshold. -/
def oneWeekMs : Int := 7 * 24 * 60 * 60 * 1000

/-- Fault flags for the gate's three external dependencies. -/
structure GateEnv where
  readThrows : Bool
  upsertThrows : Bool
  dispatchFails : Bool
deriving DecidableEq, Repr

/-- The fault-free environment. -/
def gateEnvOk : GateEnv := ⟨false, false, false⟩

/-- The Twilio Studio execution call of `sendTwilio`. -/
def dispatchFlow (env : GateEnv) : Except Unit Unit :=
  if env.dispatchFails then Except.error () else Except.ok ()

/-- `sendTwilio`: upsert the communication record, then trigger the flow;
the trigger is wrapped in its own `try`/`catch`, so its failure is swallowed
and the logged communication is kept. An `upsertThrows` failure propagates
(`none`). -/
def sendTwilioStep (env : GateEnv) (phone reason : String) (now : Int)
    (s : List CommRow) : Option (List CommRow) :=
  if env.upsertThrows then none
  else
    some
      (match dispatchFlow env with
       | Except.error _ => logCommunication phone reason now s
       | Except.ok _ => logCommunication phone reason now s)

/-- `triggerTwilioOrRemove`: the notification gate. Returns the removal
decision and the updated communication log. The whole body sits in a `try`
whose `catch` returns `true` (fail open). -/
def triggerTwilioOrRemove (env : GateEnv) (waitingPeriod now : Int)
    (phone reason : String) (s : List CommRow) : Bool × List CommRow :=
  if env.readThrows then (true, s)
  else
    match getLastCommunication phone s with
    | none =>
        match sendTwilioStep env phone reason now s with
        | none => (true, s)
        | some s' => (false, s')
    | some lastComm =>
        if lastComm.reason ≠ reason then
          match sendTwilioStep env phone reason now s with
          | none => (true, s)
          | some s' => (false, s')
        else if now - lastComm.timestamp > oneWeekMs then
          match sendTwilioStep env phone reason now s with
          | none => (true, s)
          | some s' => (false, s')
        else if now - lastComm.timestamp > waitingPeriod then (true, s)
        else (false, s)

/-- C4: in a fault-free run the gate returns `true` exactly when the latest
unresolved communication for the phone carries the current reason and its age
is strictly above the waiting period but not above one week; when there is no
unresolved record, or the stored reason differs, or the age exceeds one week,
it refreshes the record (upsert) and returns `false`; in the remaining cases it
returns `false` without writing. -/
theorem triggerTwilioOrRemove_behavior (waitingPeriod now : Int) (phone reason : String)
    (s : List CommRow) :
    ((triggerTwilioOrRemove gateEnvOk waitingPeriod now phone reason s).1 = true ↔
      ∃ c, getLastCommunication phone s = some c ∧ c.reason = reason ∧
        waitingPeriod < now - c.timestamp ∧ now - c.timestamp ≤ oneWeekMs) ∧
    ((getLastCommunication phone s = none ∨
        ∃ c, getLastCommunication phone s = some c ∧
          (c.reason ≠ reason ∨ oneWeekMs < now - c.timestamp)) →
      triggerTwilioOrRemove gateEnvOk waitingPeriod now phone reason s =
        (false, logCommunication phone reason now s)) ∧
    ((∃ c, getLastCommunication phone s = some c ∧ c.reason = reason ∧
        now - c.timestamp ≤ oneWeekMs ∧ now - c.timestamp ≤ waitingPeriod) →
      triggerTwilioOrRemove gateEnvOk waitingPeriod now phone reason s = (false, s)) := by
  cases hlast : getLastCommunication phone s with
  | none =>
      have hgate : triggerTwilioOrRemove gateEnvOk waitingPeriod now phone reason s =
          (false, logCommunication phone reason now s) := by
        simp only [triggerTwilioOrRemove, sendTwilioStep, dispatchFlow, gateEnvOk, hlast,
          Bool.false_eq_true, if_false]
      refine ⟨?_, fun _ => hgate, ?_⟩
      · rw [hgate]
        constructor
        · intro h
          simp at h
        · rintro ⟨c, hc, -⟩
          exact Option.noConfusion hc
      · rintro ⟨c, hc, -⟩
        exact Option.noConfusion hc
  | some c =>
      by_cases hr : c.reason = reason
      · by_cases hweek : oneWeekMs < now - c.timestamp
        · have hgate : triggerTwilioOrRemove gateEnvOk waitingPeriod now phone reason s =
              (false, logCommunication phone reason now s) := by
            simp only [triggerTwilioOrRemove, sendTwilioStep, dispatchFlow, gateEnvOk, hlast,
              Bool.false_eq_true, if_false]
            rw [if_neg (by simp [hr]), if_pos hweek]
          refine ⟨?_, fun _ => hgate, ?_⟩
          · rw [hgate]
            constructor
            · intro h
              simp at h
            · rintro ⟨c', hc', -, -, h4⟩
              have hcc := Option.some.inj hc'
              subst hcc
              exact absurd h4 (by omega)
          · rintro ⟨c', hc', -, h4, -⟩
            have hcc := Option.some.inj hc'
            subst hcc
            exact absurd h4 (by omega)
        · by_cases hwait : waitingPeriod < now - c.timestamp
          · have hgate : triggerTwilioOrRemove gateEnvOk waitingPeriod now phone reason s =
                (true, s) := by
              simp only [triggerTwilioOrRemove, sendTwilioStep, dispatchFlow, gateEnvOk, hlast,
                Bool.false_eq_true, if_false]
              rw [if_neg (by simp [hr]), if_neg hweek, if_pos hwait]
            refine ⟨?_, ?_, ?_⟩
            · rw [hgate]
              exact ⟨fun _ => ⟨c, rfl, hr, hwait, by omega⟩, fun _ => rfl⟩
            · rintro (h | ⟨c', hc', h'⟩)
              · exact Option.noConfusion h
              · have hcc := Option.some.inj hc'
                subst hcc
                rcases h' with h' | h'
                · exact absurd hr h'
                · exact absurd h' (by omega)
            · rintro ⟨c', hc', -, -, h4⟩
              have hcc := Option.some.inj hc'
              subst hcc
              exact absurd h4 (by omega)
          · have hgate : triggerTwilioOrRemove gateEnvOk waitingPeriod now phone reason s =
                (false, s) := by
              simp only [triggerTwilioOrRemove, sendTwilioStep, dispatchFlow, gateEnvOk, hlast,
                Bool.false_eq_true, if_false]
              rw [if_neg (by simp [hr]), if_neg hweek, if_neg hwait]
            refine ⟨?_, ?_, fun _ => hgate⟩
            · rw [hgate]
              constructor
              · intro h
                simp at h
              · rintro ⟨c', hc', -, h3, -⟩
                have hcc := Option.some.inj hc'
                subst hcc
                exact absurd h3 (by omega)
            · rintro (h | ⟨c', hc', h'⟩)
              · exact Option.noConfusion h
              · have hcc := Option.some.inj hc'
                subst hcc
                rcases h' with h' | h'
                · exact absurd hr h'
                · exact absurd h' (by omega)
      · have hgate : triggerTwilioOrRemove gateEnvOk waitingPeriod now phone reason s =
            (false, logCommunication phone reason now s) := by
          simp only [triggerTwilioOrRemove, sendTwilioStep, dispatchFlow, gateEnvOk, hlast,
            Bool.false_eq_true, if_false]
          rw [if_pos hr]
        refine ⟨?_, fun _ => hgate, ?_⟩
        · rw [hgate]
          constructor
          · intro h
            simp at h
          · rintro ⟨c', hc', hr', -⟩
            have hcc := Option.some.inj hc'
            subst hcc
            exact absurd hr' hr
        · rintro ⟨c', hc', hr', -⟩
          have hcc := Option.some.inj hc'
          subst hcc
          exact absurd hr' hr

/-- Witness for C4 on the empty communication log. -/
theorem triggerTwilioOrRemove_behavior_witness :
    triggerTwilioOrRemove gateEnvOk 1000 5000 "5511912345678" "mensa_inactive" [] =
      (false, logCommunication "5511912345678" "mensa_inactive" 5000 []) :=
  (triggerTwilioOrRemove_behavior 1000 5000 "5511912345678" "mensa_inactive" []).2.1
    (Or.inl (by decide))

/-- C5: the gate fails open exactly on thrown dependencies: a communication-log
read failure returns `true` without writing; an upsert failure in any branch
that writes returns `true`; a notification-dispatch failure alone neither
changes the outcome nor escapes the gate — in the writing branches the gate
still returns `false`. -/
theorem triggerTwilioOrRemove_fail_open (waitingPeriod now : Int) (phone reason : String)
    (s : List CommRow) :
    (∀ u d : Bool,
      triggerTwilioOrRemove ⟨true, u, d⟩ waitingPeriod now phone reason s = (true, s)) ∧
    (∀ d : Bool,
      (getLastCommunication phone s = none ∨
        ∃ c, getLastCommunication phone s = some c ∧
          (c.reason ≠ reason ∨ oneWeekMs < now - c.timestamp)) →
      (triggerTwilioOrRemove ⟨false, true, d⟩ waitingPeriod now phone reason s).1 = true) ∧
    (∀ d : Bool,
      triggerTwilioOrRemove ⟨false, false, d⟩ waitingPeriod now phone reason s =
        triggerTwilioOrRemove gateEnvOk waitingPeriod now phone reason s) ∧
    (∀ d : Bool,
      (getLastCommunication phone s = none ∨
        ∃ c, getLastCommunication phone s = some c ∧
          (c.reason ≠ reason ∨ oneWeekMs < now - c.timestamp)) →
      (triggerTwilioOrRemove ⟨false, false, d⟩ waitingPeriod now phone reason s).1 = false) := by
  refine ⟨fun u d => rfl, ?_, ?_, ?_⟩
  · intro d h
    rcases h with hnone | ⟨c, hc, h'⟩
    · simp [triggerTwilioOrRemove, sendTwilioStep, hnone]
    · by_cases hreq : c.reason = reason
      · rcases h' with h' | h'
        · exact absurd hreq h'
        · simp only [triggerTwilioOrRemove, sendTwilioStep, hc, Bool.false_eq_true, if_false]
          rw [if_neg (by simp [hreq]), if_pos h']
          simp
      · simp only [triggerTwilioOrRemove, sendTwilioStep, hc, Bool.false_eq_true, if_false]
        rw [if_pos hreq]
        simp
  · intro d
    cases d
    · rfl
    · simp [triggerTwilioOrRemove, sendTwilioStep, dispatchFlow, gateEnvOk]
  · intro d h
    rcases h with hnone | ⟨c, hc, h'⟩
    · simp [triggerTwilioOrRemove, sendTwilioStep, dispatchFlow, hnone]
    · by_cases hreq : c.reason = reason
      · rcases h' with h' | h'
        · exact absurd hreq h'
        · simp only [triggerTwilioOrRemove, sendTwilioStep, dispatchFlow, hc,
            Bool.false_eq_true, if_false]
          rw [if_neg (by simp [hreq]), if_pos h']
      · simp only [triggerTwilioOrRemove, sendTwilioStep, dispatchFlow, hc,
          Bool.false_eq_true, if_false]
        rw [if_pos hreq]

/-- Witness for C5: a read failure on a concrete log removes; a dispatch-only
failure on the same log merely warns. -/
theorem triggerTwilioOrRemove_fail_open_witness :
    triggerTwilioOrRemove ⟨true, false, false⟩ 1000 5000 "5511912345678" "mensa_not_found" [] =
      (true, []) ∧
    (triggerTwilioOrRemove ⟨false, false, true⟩ 1000 5000 "5511912345678" "mensa_not_found"
        []).1 = false :=
  ⟨(triggerTwilioOrRemove_fail_open 1000 5000 "5511912345678" "mensa_not_found" []).1
      false false,
   (triggerTwilioOrRemove_fail_open 1000 5000 "5511912345678" "mensa_not_found" []).2.2.2
      true (Or.inl (by decide))⟩

/-! ### C7 — no duplicate upsert within the waiting window -/

theorem glStep_ne_none {phone : String} {b : CommRow} (r : CommRow) :
    glStep phone (some b) r ≠ none := by
  unfold glStep
  by_cases h : (r.phone == phone && r.unresolved) = true
  · simp only [h, if_true]
    by_cases h2 : b.timestamp < r.timestamp <;> simp [h2]
  · simp [h]

theorem foldl_glStep_some_ne_none (phone : String) (rest : List CommRow) :
    ∀ b : CommRow, List.foldl (glStep phone) (some b) rest ≠ none := by
  induction rest with
  | nil => intro b; simp
  | cons r rs ih =>
      intro b
      simp only [List.foldl_cons]
      cases hstep : glStep phone (some b) r with
      | none => exact absurd hstep (glStep_ne_none r)
      | some b' => exact ih b'

theorem getLast_none_all (phone : String) :
    ∀ s : List CommRow, getLastCommunication phone s = none →
      ∀ r ∈ s, (r.phone == phone && r.unresolved) = false := by
  intro s
  unfold getLastCommunication
  induction s with
  | nil => intro _ r hr; cases hr
  | cons a as ih =>
      intro h r hr
      rw [List.foldl_cons] at h
      by_cases ha : (a.phone == phone && a.unresolved) = true
      · have hg : glStep phone none a = some a := by simp [glStep, ha]
        rw [hg] at h
        exact absurd h (foldl_glStep_some_ne_none phone as a)
      · have hg : glStep phone none a = none := by simp [glStep, ha]
        rw [hg] at h
        rcases List.mem_cons.mp hr with rfl | hr'
        · exact Bool.eq_false_iff.mpr ha
        · exact ih h r hr'

theorem foldl_glStep_inv (phone : String) (p : CommRow → Prop) :
    ∀ (s : List CommRow) (acc : Option CommRow),
      (∀ r ∈ s, (r.phone == phone && r.unresolved) = true → p r) →
      (acc = none ∨ ∃ b, acc = some b ∧ p b) →
      (List.foldl (glStep phone) acc s = none ∨
        ∃ b, List.foldl (glStep phone) acc s = some b ∧ p b) := by
  intro s
  induction s with
  | nil => intro acc _ hacc; simpa using hacc
  | cons a as ih =>
      intro acc hall hacc
      simp only [List.foldl_cons]
      apply ih
      · intro r hr hbr
        exact hall r (List.mem_cons_of_mem a hr) hbr
      · by_cases ha : (a.phone == phone && a.unresolved) = true
        · have hpa : p a := hall a (List.mem_cons_self a as) ha
          rcases hacc with rfl | ⟨b, rfl, hpb⟩
          · exact Or.inr ⟨a, by simp [glStep, ha], hpa⟩
          · by_cases ht : b.timestamp < a.timestamp
            · exact Or.inr ⟨a, by simp [glStep, ha, ht], hpa⟩
            · exact Or.inr ⟨b, by simp [glStep, ha, ht], hpb⟩
        · rcases hacc with rfl | ⟨b, rfl, hpb⟩
          · exact Or.inl (by simp [glStep, ha])
          · exact Or.inr ⟨b, by simp [glStep, ha], hpb⟩

theorem foldl_glStep_exists (phone : String) :
    ∀ (s : List CommRow) (acc : Option CommRow),
      ((∃ r ∈ s, (r.phone == phone && r.unresolved) = true) ∨ acc ≠ none) →
      List.foldl (glStep phone) acc s ≠ none := by
  intro s
  induction s with
  | nil =>
      intro acc h
      rcases h with ⟨r, hr, -⟩ | h
      · cases hr
      · simpa using h
  | cons a as ih =>
      intro acc h
      simp only [List.foldl_cons]
      by_cases ha : (a.phone == phone && a.unresolved) = true
      · apply ih
        refine Or.inr ?_
        cases acc with
        | none => simp [glStep, ha]
        | some b => by_cases ht : b.timestamp < a.timestamp <;> simp [glStep, ha, ht]
      · apply ih
        rcases h with ⟨r, hr, hbr⟩ | hne
        · rcases List.mem_cons.mp hr with rfl | hr'
          · exact absurd hbr ha
          · exact Or.inl ⟨r, hr', hbr⟩
        · refine Or.inr ?_
          simpa [glStep, ha] using hne

theorem logComm_rows_spec (phone reason : String) (now : Int) (s : List CommRow)
    (hnone : getLastCommunication phone s = none) :
    (∀ r ∈ logCommunication phone reason now s,
        (r.phone == phone && r.unresolved) = true → r.reason = reason ∧ r.timestamp = now) ∧
    (∃ r ∈ logCommunication phone reason now s, (r.phone == phone && r.unresolved) = true) := by
  have hall := getLast_none_all phone s hnone
  unfold logCommunication
  by_cases hany : s.any (fun r => r.phone == phone && r.reason == reason) = true
  · rw [if_pos hany]
    constructor
    · intro r hr hbr
      rcases List.mem_map.mp hr with ⟨r0, hr0, rfl⟩
      by_cases hk : (r0.phone == phone && r0.reason == reason) = true
      · rw [if_pos hk]
        have hk' : r0.phone = phone ∧ r0.reason = reason := by simpa using hk
        exact ⟨hk'.2, rfl⟩
      · rw [if_neg hk] at hbr
        exact absurd hbr (by simp [hall r0 hr0])
    · obtain ⟨r0, hr0, hk⟩ := List.any_eq_true.mp hany
      refine ⟨if r0.phone == phone && r0.reason == reason then
          { r0 with timestamp := now, unresolved := true } else r0,
        List.mem_map_of_mem _ hr0, ?_⟩
      rw [if_pos hk]
      have hk' : r0.phone = phone ∧ r0.reason = reason := by simpa using hk
      simp [hk'.1]
  · rw [if_neg hany]
    constructor
    · intro r hr hbr
      rcases List.mem_append.mp hr with hr' | hr'
      · exact absurd hbr (by simp [hall r hr'])
      · have : r = ⟨phone, reason, now, true⟩ := by simpa using hr'
        subst this
        exact ⟨rfl, rfl⟩
    · exact ⟨⟨phone, reason, now, true⟩, by simp, by simp⟩

theorem getLast_after_logComm (phone reason : String) (now : Int) (s : List CommRow)
    (hnone : getLastCommunication phone s = none) :
    ∃ b, getLastCommunication phone (logCommunication phone reason now s) = some b ∧
      b.reason = reason ∧ b.timestamp = now := by
  obtain ⟨hall, hex⟩ := logComm_rows_spec phone reason now s hnone
  have hinv := foldl_glStep_inv phone (fun b => b.reason = reason ∧ b.timestamp = now)
    (logCommunication phone reason now s) none hall (Or.inl rfl)
  unfold getLastCommunication
  rcases hinv with hno | ⟨b, hb, hpb⟩
  · exact absurd hno (foldl_glStep_exists phone _ none (Or.inl hex))
  · exact ⟨b, hb, hpb⟩

/-- C7: starting from a log with no unresolved communication for the phone and
a non-negative waiting period, two gate calls at the same instant both return
`false` and write exactly once: the first call performs the upsert, the second
leaves the log unchanged. -/
theorem triggerTwilioOrRemove_single_upsert (waitingPeriod now : Int)
    (phone reason : String) (s : List CommRow)
    (hwp : 0 ≤ waitingPeriod)
    (hnone : getLastCommunication phone s = none) :
    triggerTwilioOrRemove gateEnvOk waitingPeriod now phone reason s =
      (false, logCommunication phone reason now s) ∧
    triggerTwilioOrRemove gateEnvOk waitingPeriod now phone reason
        (logCommunication phone reason now s) =
      (false, logCommunication phone reason now s) := by
  constructor
  · simp only [triggerTwilioOrRemove, sendTwilioStep, dispatchFlow, gateEnvOk, hnone,
      Bool.false_eq_true, if_false]
  · obtain ⟨b, hb, hbr, hbt⟩ := getLast_after_logComm phone reason now s hnone
    simp only [triggerTwilioOrRemove, sendTwilioStep, dispatchFlow, gateEnvOk, hb,
      Bool.false_eq_true, if_false]
    have h1 : ¬now - b.timestamp > oneWeekMs := by
      rw [hbt]
      unfold oneWeekMs
      omega
    have h2 : ¬now - b.timestamp > waitingPeriod := by
      rw [hbt]
      omega
    rw [if_neg (by simp [hbr]), if_neg h1, if_neg h2]

/-- Witness for C7 on the empty communication log. -/
theorem triggerTwilioOrRemove_single_upsert_witness :
    triggerTwilioOrRemove gateEnvOk 0 5 "5511912345678" "mensa_inactive" [] =
      (false, logCommunication "5511912345678" "mensa_inactive" 5 []) ∧
    triggerTwilioOrRemove gateEnvOk 0 5 "5511912345678" "mensa_inactive"
        (logCommunication "5511912345678" "mensa_inactive" 5 []) =
      (false, logCommunication "5511912345678" "mensa_inactive" 5 []) :=
  triggerTwilioOrRemove_single_upsert 0 5 "5511912345678" "mensa_inactive" []
    (by decide) (by decide)

/-! ## Removal Policy Evaluator (`src/core/removeTask.ts`)

`removeTask.ts` consumes the result of the registry match through the
`PhoneCheckResult` interface of `types/PhoneTypes.ts` (the `jb_under_13` /
`jb_13_to_17` field family); every field other than `found` may be `undefined`,
and the code reads them through JavaScript truthiness (`Boolean(x)`). -/

/-- The match-result shape read by `removeTask.ts` (`types/PhoneTypes.ts`). -/
structure PhoneCheckFields where
  found : Bool
  status : Option String := none
  mb : Option Int := none
  gender : Option String := none
  jb_under_13 : Option Bool := none
  jb_13_to_17 : Option Bool := none
  is_adult : Option Bool := none
  is_legal_representative : Option Bool := none
  represents_jb_13_to_17 : Option Bool := none
  has_adult_female : Option Bool := none
  represents_minor : Option Bool := none
  child_phone_matches_legal_rep : Option Bool := none
  has_accepted_terms : Option Bool := none
deriving DecidableEq, Repr

/-- `Boolean(x)` on a possibly-undefined boolean field. -/
def jsBool (o : Option Bool) : Bool := o.getD false

/-- The legacy exception group names hard-coded in `removeTask.ts`. -/
def jbExceptionGroupNames : List String := ["MB | N-SIGs Mensa Brasil", "MB | Xadrez"]

/-- A removal request as pushed onto the queue (`type: "remove"` is implicit). -/
structure RemovalQueueItem where
  registration_id : Option Int
  groupId : String
  phone : String
  reason : String
  communityId : Option String
deriving DecidableEq, Repr

/-- The per-participant rule cascade of `removeMembersFromGroups`
(`removeTask.ts` lines 124–329), for a participant that survived the admin,
unresolved-phone and `DONT_REMOVE` skips. The notification gate is passed in as
an oracle `gate phone reason` giving the boolean result of
`triggerTwilioOrRemove`; `some item` is a `pushRemoval`, `none` means the
participant is kept this cycle. -/
def evalMember (gate : String → String → Bool) (groupName groupId : String)
    (communityId : Option String) (isException : Bool) (member : String)
    (c : PhoneCheckFields) : Option RemovalQueueItem :=
  let isOrgGroup := isOrgMBGroup groupName
  let isAJB := isAJBGroup groupName
  let isRJB := isRJBGroup groupName
  let isRegularJB := isRegularJBGroup groupName
  let isJBGroup := isRegularJB
  let isNonJB := isNonJBGroup groupName jbExceptionGroupNames
  let isLegalRep := jsBool c.is_legal_representative
  let isAdult := jsBool c.is_adult
  let childPhoneMatchesRep := jsBool c.child_phone_matches_legal_rep
  let isEffectiveLegalRep := isLegalRep || (!isAdult && childPhoneMatchesRep)
  let isChild := !isAdult && !isEffectiveLegalRep
  let isUnder13 := isChild && jsBool c.jb_under_13
  let jb13To17Registration := jsBool c.jb_13_to_17
  let isJB13To17 := isChild && jb13To17Registration
  let hasAcceptedTerms := jsBool c.has_accepted_terms
  if c.found && !isException && isUnder13 then
    some ⟨c.mb, groupId, member, "Under 13 not allowed in WhatsApp groups.", communityId⟩
  else if isOrgGroup then
    if c.found then
      if c.status == some "Inactive" then
        if gate member "mensa_inactive" then
          some ⟨c.mb, groupId, member, "Inactive", communityId⟩
        else none
      else none
    else if gate member "mensa_not_found" then
      some ⟨none, groupId, member, "Not found in DB", communityId⟩
    else none
  else if c.found && isMBMulheresGroup groupName &&
      (!jsBool c.has_adult_female && c.gender == some "Masculino") then
    some ⟨c.mb, groupId, member, "Member is Masculine in a Feminine group.", communityId⟩
  else if c.found && isRJB && isChild then
    some ⟨c.mb, groupId, member,
      "Child's phone doesn't match legal representative's phone in R.JB group", communityId⟩
  else if c.found && isRJB && !isEffectiveLegalRep then
    some ⟨c.mb, groupId, member,
      "Adult is not a legal representative in R.JB community.", communityId⟩
  else if c.found && isRJB && groupName == "R.JB | Familiares de JB 12+" &&
      !jsBool c.represents_jb_13_to_17 then
    some ⟨c.mb, groupId, member,
      "Member is not legal representative of a 13+ years old member.", communityId⟩
  else if c.found && isRJB && (isEffectiveLegalRep && !jsBool c.represents_minor) then
    some ⟨c.mb, groupId, member,
      "Legal representative no longer represents a minor (child is 18+).", communityId⟩
  else if c.found then
    if !isException && !isAJB && (isJBGroup && isAdult && !isEffectiveLegalRep) then
      some ⟨c.mb, groupId, member,
        "Adult is not a legal representative in JB group.", communityId⟩
    else if !isException && !isAJB && (isJBGroup && jb13To17Registration && !hasAcceptedTerms) then
      some ⟨c.mb, groupId, member, "Missing gov.br authorization.", communityId⟩
    else if !isException && isNonJB && isJB13To17 then
      some ⟨c.mb, groupId, member, "User is JB in non-JB group", communityId⟩
    else if c.status == some "Inactive" then
      if gate member "mensa_inactive" then
        some ⟨c.mb, groupId, member, "Inactive", communityId⟩
      else none
    else none
  else if gate member "mensa_not_found" then
    some ⟨none, groupId, member, "Not found in DB", communityId⟩
  else none

/-- C1 (amended): for an evaluated participant whose match is found, who is not
on the exception list and whose attributes classify them as a child (not adult,
not a legal representative, child-phone flag clear) with the under-13 flag set,
the cascade enqueues the immediate under-minimum-age removal, for every group
name and gate behaviour. -/
theorem evalMember_under13_removes (gate : String → String → Bool)
    (groupName groupId : String) (communityId : Option String) (member : String)
    (c : PhoneCheckFields)
    (hfound : c.found = true)
    (hadult : jsBool c.is_adult = false)
    (hrep : jsBool c.is_legal_representative = false)
    (hmatch : jsBool c.child_phone_matches_legal_rep = false)
    (hu13 : jsBool c.jb_under_13 = true) :
    evalMember gate groupName groupId communityId false member c =
      some ⟨c.mb, groupId, member, "Under 13 not allowed in WhatsApp groups.", communityId⟩ := by
  unfold evalMember
  simp [hfound, hadult, hrep, hmatch, hu13]

/-- C1 counterexample registry attributes: an under-13 child on the exception
list, otherwise Active. -/
def cUnder13Exc : PhoneCheckFields :=
  { found := true
    status := some "Active"
    mb := some 42
    gender := some "Feminino"
    jb_under_13 := some true
    jb_13_to_17 := some false
    is_adult := some false
    is_legal_representative := some false
    child_phone_matches_legal_rep := some false
    has_accepted_terms := some false }

/-- C1 counterexample: a found participant with the under-13 flag set who is on
the exception list is not removed at all — the under-minimum-age rule is *not*
applied regardless of exception-list membership (and the adult / legal-rep /
child-phone flags likewise gate it via `isChild`). -/
theorem evalMember_under13_not_unconditional :
    cUnder13Exc.found = true ∧ jsBool cUnder13Exc.jb_under_13 = true ∧
    evalMember (fun _ _ => true) "JB | Kids" "g1" none true "5511999999999" cUnder13Exc =
      none := by
  refine ⟨rfl, rfl, by decide⟩

/-- Witness for the amended C1 theorem at concrete inputs. -/
theorem evalMember_under13_removes_witness :
    evalMember (fun _ _ => false) "MB | Regional" "g7" (some "comm1") false "5511888887777"
        { cUnder13Exc with child_phone_matches_legal_rep := some false } =
      some ⟨some 42, "g7", "5511888887777",
        "Under 13 not allowed in WhatsApp groups.", some "comm1"⟩ :=
  evalMember_under13_removes (fun _ _ => false) "MB | Regional" "g7" (some "comm1")
    "5511888887777" _ rfl rfl rfl rfl rfl

/-! ### C3 — error containment of the evaluation loop

The batch loop of `removeMembersFromGroups` wraps each *group* in a
`try`/`catch` (lines 103–334): the participant loop runs inside the `try`, so a
throw while evaluating one participant abandons the rest of that group's
participants but not the other groups. The per-participant body (phone
resolution, registry match, classification, gate) is abstracted as an
evaluator returning `Except Unit (Option RemovalQueueItem)`, `Except.error`
standing for a thrown exception. -/

/-- A group as consumed by the batch loop. -/
structure BatchGroup where
  id : String
  name : String
  announceGroup : Option String
  participants : List MinimalParticipant
deriving DecidableEq, Repr

/-- The participant loop inside one group's `try`: items pushed before a throw
are retained, participants after the throw are skipped. -/
def runGroupParticipants
    (evalp1 : MinimalParticipant → Except Unit (Option RemovalQueueItem)) :
    List MinimalParticipant → List RemovalQueueItem
  | [] => []
  | p :: rest =>
      match evalp1 p with
      | Except.error _ => []
      | Except.ok none => runGroupParticipants evalp1 rest
      | Except.ok (some it) => it :: runGroupParticipants evalp1 rest

/-- The group loop of `removeMembersFromGroups`: each group's contribution is
collected; a `catch` at group level logs and moves on to the next group. -/
def removeBatchItems
    (evalp : BatchGroup → MinimalParticipant → Except Unit (Option RemovalQueueItem))
    (groups : List BatchGroup) : List RemovalQueueItem :=
  groups.foldl (fun acc g => acc ++ runGroupParticipants (evalp g) g.participants) []

theorem removeBatchItems_acc
    (evalp : BatchGroup → MinimalParticipant → Except Unit (Option RemovalQueueItem))
    (gs : List BatchGroup) :
    ∀ acc : List RemovalQueueItem,
      List.foldl (fun acc g => acc ++ runGroupParticipants (evalp g) g.participants) acc gs =
        acc ++ removeBatchItems evalp gs := by
  induction gs with
  | nil => intro acc; simp [removeBatchItems]
  | cons g gs ih =>
      intro acc
      unfold removeBatchItems
      simp only [List.foldl_cons, List.nil_append]
      rw [ih, ih (runGroupParticipants (evalp g) g.participants)]
      simp [List.append_assoc]

theorem removeBatchItems_cons
    (evalp : BatchGroup → MinimalParticipant → Except Unit (Option RemovalQueueItem))
    (g : BatchGroup) (gs : List BatchGroup) :
    removeBatchItems evalp (g :: gs) =
      runGroupParticipants (evalp g) g.participants ++ removeBatchItems evalp gs := by
  unfold removeBatchItems
  simp only [List.foldl_cons, List.nil_append]
  exact removeBatchItems_acc evalp gs _

theorem removeBatchItems_append
    (evalp : BatchGroup → MinimalParticipant → Except Unit (Option RemovalQueueItem))
    (l1 l2 : List BatchGroup) :
    removeBatchItems evalp (l1 ++ l2) =
      removeBatchItems evalp l1 ++ removeBatchItems evalp l2 := by
  induction l1 with
  | nil => simp [removeBatchItems]
  | cons g gs ih =>
      rw [List.cons_append, removeBatchItems_cons, removeBatchItems_cons, ih,
        List.append_assoc]

theorem runGroupParticipants_prefix
    (evalp1 : MinimalParticipant → Except Unit (Option RemovalQueueItem))
    (ps1 : List MinimalParticipant) (pbad : MinimalParticipant)
    (ps2 : List MinimalParticipant)
    (hok : ∀ p ∈ ps1, evalp1 p ≠ Except.error ())
    (hbad : evalp1 pbad = Except.error ()) :
    runGroupParticipants evalp1 (ps1 ++ pbad :: ps2) =
      ps1.filterMap (fun p =>
        match evalp1 p with
        | Except.ok o => o
        | Except.error _ => none) := by
  induction ps1 with
  | nil => simp [runGroupParticipants, hbad]
  | cons p ps ih =>
      have hp : evalp1 p ≠ Except.error () := hok p (List.mem_cons_self p ps)
      have ihp := ih (fun q hq => hok q (List.mem_cons_of_mem p hq))
      cases he : evalp1 p with
      | error e =>
          cases e
          exact absurd he hp
      | ok o =>
          cases o with
          | none => simp [runGroupParticipants, he, List.filterMap_cons, ihp]
          | some it => simp [runGroupParticipants, he, List.filterMap_cons, ihp]

/-- C3 (amended): the `try`/`catch` sits around each *group*, not each
participant: when one participant of a group throws, the items of that group's
earlier participants are kept, the group's remaining participants are skipped,
and every other group of the batch — before and after — is still fully
evaluated. -/
theorem removeBatchItems_error_containment
    (evalp : BatchGroup → MinimalParticipant → Except Unit (Option RemovalQueueItem))
    (gs1 gs2 : List BatchGroup) (g : BatchGroup)
    (ps1 ps2 : List MinimalParticipant) (pbad : MinimalParticipant)
    (hparts : g.participants = ps1 ++ pbad :: ps2)
    (hok : ∀ p ∈ ps1, evalp g p ≠ Except.error ())
    (hbad : evalp g pbad = Except.error ()) :
    removeBatchItems evalp (gs1 ++ g :: gs2) =
      removeBatchItems evalp gs1 ++
        ps1.filterMap (fun p =>
          match evalp g p with
          | Except.ok o => o
          | Except.error _ => none) ++
        removeBatchItems evalp gs2 := by
  rw [removeBatchItems_append, removeBatchItems_cons, hparts,
    runGroupParticipants_prefix (evalp g) ps1 pbad ps2 hok hbad, List.append_assoc]

/-- C3 counterexample inputs: a group whose first participant throws and whose
second participant would produce a removal item. -/
def itemCex : RemovalQueueItem :=
  ⟨some 1, "g1", "5511999999999", "Not found in DB", none⟩

def pThrow : MinimalParticipant := MinimalParticipant.pstr "throw@lid"

def pGood : MinimalParticipant := MinimalParticipant.pstr "5511999999999@s.whatsapp.net"

def groupCex : BatchGroup := ⟨"g1", "Group", none, [pThrow, pGood]⟩

def groupCex2 : BatchGroup := ⟨"g2", "Group2", none, [pGood]⟩

def evalCex : BatchGroup → MinimalParticipant → Except Unit (Option RemovalQueueItem) :=
  fun _ p => if p = pThrow then Except.error () else Except.ok (some itemCex)

/-- C3 counterexample: the participant after the thrower is *not* evaluated —
its removal item is missing from the batch, so a throw does not merely skip the
one bad participant. -/
theorem removeBatchItems_not_per_participant :
    evalCex groupCex pGood = Except.ok (some itemCex) ∧
    pGood ∈ groupCex.participants ∧
    removeBatchItems evalCex [groupCex] = [] := by
  exact ⟨rfl, by decide, rfl⟩

/-- Witness for the amended C3 theorem at the concrete two-group batch: the
throwing group contributes nothing, the following group is still evaluated. -/
theorem removeBatchItems_error_containment_witness :
    removeBatchItems evalCex ([] ++ groupCex :: [groupCex2]) =
      removeBatchItems evalCex [] ++
        ([] : List MinimalParticipant).filterMap (fun p =>
          match evalCex groupCex p with
          | Except.ok o => o
          | Except.error _ => none) ++
        removeBatchItems evalCex [groupCex2] :=
  removeBatchItems_error_containment evalCex [] [groupCex2] groupCex [] [pGood] pThrow
    rfl (by simp) rfl

/-! ## Queue Publisher (`src/db/redis.ts`) -/

/-- `clearQueue`: `DEL` of the queue key — the queue becomes empty. -/
def clearQueue (_q : List RemovalQueueItem) : List RemovalQueueItem := []

/-- `sendToQueue`: an empty batch returns `false` without touching the queue;
otherwise `RPUSH` appends all items and returns `true`. -/
def sendToQueue (items q : List RemovalQueueItem) : Bool × List RemovalQueueItem :=
  if items.isEmpty then (false, q) else (true, q ++ items)

/-- The publish step at the end of `removeMembersFromGroups` (lines 336–337):
`clearQueue("removeQueue")` then `sendToQueue(queueItems, "removeQueue")`. -/
def publishRemoveQueue (items q : List RemovalQueueItem) : Bool × List RemovalQueueItem :=
  sendToQueue items (clearQueue q)

/-- C8: publishing an empty decision batch still leaves the downstream queue
empty — the unconditional clear runs before the (skipped) send, so no stale
items from the previous batch survive; a non-empty batch fully replaces the
queue contents. -/
theorem publishRemoveQueue_empty_clears (q : List RemovalQueueItem) :
    (publishRemoveQueue [] q).2 = [] ∧
    ∀ items : List RemovalQueueItem, (publishRemoveQueue items q).2 = items := by
  refine ⟨rfl, ?_⟩
  intro items
  unfold publishRemoveQueue sendToQueue clearQueue
  by_cases h : items.isEmpty
  · rw [if_pos h]
    simp [List.isEmpty_iff.mp h]
  · rw [if_neg h]
    simp

end Dispatcher
